import Mathlib

/-!
Verification of the `const_panic` bounded-buffer rendering engine.

The definitions below are a shallow embedding of the repository's source:
`src/panic_val.rs` (value descriptors, integer rendering) and
`src/concat_panic_.rs` (the buffer writer and capacity escalator).
Bytes are modelled as `Nat` (< 256 in all real inputs), byte buffers as
`List Nat`, and the growing output buffer as the list of bytes written so
far (the Rust `len` cursor is the list's length).  Helper modules of the
crate that are not part of the given sources (`utils`, `fmt`,
`debug_str_fmt`, the `__write_array` macros) are modelled from the spec;
each such definition is marked `Modelled from the spec:`.
-/

/-- The `FmtKind` enum of the crate's `fmt` module. Modelled from the spec:
render mode is either Display (verbatim) or Quoted/Debug (quoted + escaped). -/
inductive FmtKind where
  | Display : FmtKind
  | Debug : FmtKind
deriving DecidableEq

/-- The `WasTruncated` type of the crate's `utils` module. Modelled from the
spec: a truncation outcome is either "fits entirely" (`No`) or "fits only the
first N raw bytes" (`Yes N`). -/
inductive WasTruncated where
  | No : WasTruncated
  | Yes : Nat → WasTruncated
deriving DecidableEq

/-- `WasTruncated::get_length`: the number of raw source bytes to emit. -/
def WasTruncated.get_length (wt : WasTruncated) (s : List Nat) : Nat :=
  match wt with
  | .No => s.length
  | .Yes n => n

/-- Modelled from the spec: `FmtArg` (crate `fmt` module): an already-resolved
formatting flag carrying the render mode, alternate-mode flag and the
indentation (padding) byte count. -/
structure FmtArg where
  fmt_kind : FmtKind
  is_alternate : Bool
  indentation : Nat
deriving DecidableEq

/-- `FmtArg::DISPLAY`. -/
def FmtArg.DISPLAY : FmtArg := ⟨.Display, false, 0⟩

/-- `FmtArg::DEBUG`. -/
def FmtArg.DEBUG : FmtArg := ⟨.Debug, false, 0⟩

/- ## Escaping policy (crate `debug_str_fmt` module) -/

/-- Modelled from the spec: `ForEscaping::is_backslash_escaped`: the shorthand
escape set is the common control characters `\n` `\t` `\r` `\0` and the two
structurally significant characters backslash and double-quote. -/
def is_backslash_escaped (c : Nat) : Bool :=
  (c == 0) || (c == 9) || (c == 10) || (c == 13) || (c == 34) || (c == 92)

/-- Modelled from the spec: `ForEscaping::is_escaped`: a byte is escaped iff
it is below 0x20, at or above 0x7F, or is the backslash or double-quote. -/
def is_escaped (c : Nat) : Bool :=
  (decide (c < 32)) || (decide (127 ≤ c)) || (c == 34) || (c == 92)

/-- Modelled from the spec: `ForEscaping::get_backslash_escape`: the character
that follows the backslash in a shorthand escape (`\n`, `\t`, `\r`, `\0`;
backslash and quote escape to themselves). -/
def get_backslash_escape (c : Nat) : Nat :=
  match c with
  | 0 => 48
  | 9 => 116
  | 10 => 110
  | 13 => 114
  | _ => c

/-- Modelled from the spec: `hex_as_ascii`: one hex nibble as an ASCII char. -/
def hex_as_ascii (n : Nat) : Nat :=
  if n < 10 then 48 + n else 55 + n

/-- The bytes the writer emits for one source byte in Quoted mode
(the escape loop of `write_panicval_to_buffer`, src/concat_panic_.rs). -/
def escapeByteOutput (c : Nat) : List Nat :=
  if is_escaped c then
    if is_backslash_escaped c then [92, get_backslash_escape c]
    else [92, 120, hex_as_ascii (c / 16), hex_as_ascii (c % 16)]
  else [c]

/-- Modelled from the spec: the escaped output width of one byte
(1 for unescaped, 2 for shorthand escapes, 4 for hex escapes). -/
def escByteWidth (c : Nat) : Nat :=
  if is_escaped c then (if is_backslash_escaped c then 2 else 4) else 1

/-- Cumulative escaped width of a byte string. -/
def escListWidth : List Nat → Nat
  | [] => 0
  | c :: cs => escByteWidth c + escListWidth cs

/- ## Truncation calculator (crate `utils` module) -/

/-- Modelled from the spec: Truncation Calculator, Display mode
(`truncated_str_len`): `emit_len = min(len, budget)`, truncated iff
`len > budget`. -/
def truncated_str_len (s : List Nat) (truncate_to : Nat) : WasTruncated :=
  if s.length ≤ truncate_to then .No else .Yes truncate_to

/-- The walking loop of the Quoted-mode truncation calculator: `budget` is the
space left for escaped content (both quotes already reserved), `i` the index
of the next raw byte, `w` the cumulative escaped width so far. -/
def debugTruncGo (budget : Nat) : List Nat → Nat → Nat → WasTruncated
  | [], _, _ => .No
  | c :: cs, i, w =>
    if budget < w + escByteWidth c then .Yes i
    else debugTruncGo budget cs (i + 1) (w + escByteWidth c)

/-- Modelled from the spec: Truncation Calculator, Quoted mode
(`truncated_debug_str_len`): reserves one byte for the opening quote and one
for the closing quote, then walks the candidate bytes computing cumulative
escaped width and stops at the last byte boundary that still fits. A budget
that cannot hold the two quotes truncates to zero bytes. -/
def truncated_debug_str_len (s : List Nat) (truncate_to : Nat) : WasTruncated :=
  if truncate_to < 2 then .Yes 0
  else debugTruncGo (truncate_to - 2) s 0 0

/- ## Integer rendering (src/panic_val.rs) -/

/-- `ShortArrayVec<40>` of the crate's `utils` module. Modelled from the spec:
a fixed 40-byte inline buffer whose occupied sub-range is the tail starting
at `start`. -/
structure ShortArrayVec where
  start : Nat
  buffer : List Nat
deriving DecidableEq

/-- Modelled from the spec: `ShortArrayVec::get`: the occupied sub-range. -/
def ShortArrayVec.get (v : ShortArrayVec) : List Nat := v.buffer.drop v.start

/-- Modelled from the spec: `ShortArrayVec::len`: length of the occupied
sub-range. -/
def ShortArrayVec.len (v : ShortArrayVec) : Nat := v.buffer.length - v.start

/-- `IntVal` (src/panic_val.rs line 176): pre-rendered decimal integer text. -/
structure IntVal where
  val : ShortArrayVec
deriving DecidableEq

/-- `Sign` of the crate's `utils` module. Modelled from the spec: the sign of
the integer being rendered. -/
inductive Sign where
  | Positive : Sign
  | Negative : Sign

/-- The digit-generation loop of `IntVal::new` (src/panic_val.rs lines
194-202): `start -= 1; buffer[start] = b'0' + n % 10; n /= 10;` until
`n == 0`. The loop runs once per decimal digit; `fuel` only bounds the
recursion structurally and is never exhausted when called with `fuel = n`
(each iteration divides `n` by 10). -/
def IntVal.newLoop : Nat → Nat → Nat → List Nat → Nat × List Nat
  | fuel, n, start, buffer =>
    let start1 := start - 1
    let buffer1 := buffer.set start1 (48 + n % 10)
    if n / 10 = 0 then (start1, buffer1)
    else
      match fuel with
      | 0 => (start1, buffer1)
      | fuel1 + 1 => IntVal.newLoop fuel1 (n / 10) start1 buffer1

/-- `IntVal::new` (src/panic_val.rs lines 190-213): renders the digits
least-significant-first into the tail of a 40-byte zeroed buffer, then
prepends the `-` sign for negative values. -/
def IntVal.new (sign : Sign) (n : Nat) (_f : FmtArg) : IntVal :=
  let p := IntVal.newLoop n n 40 (List.replicate 40 0)
  match sign with
  | .Positive => ⟨⟨p.1, p.2⟩⟩
  | .Negative => ⟨⟨p.1 - 1, p.2.set (p.1 - 1) 45⟩⟩

/-- `IntVal::from_u128` (src/panic_val.rs lines 179-181). -/
def IntVal.from_u128 (n : Nat) (f : FmtArg) : IntVal := IntVal.new .Positive n f

/-- `IntVal::from_i128` (src/panic_val.rs lines 182-189). -/
def IntVal.from_i128 (n : Int) (f : FmtArg) : IntVal :=
  let is_neg : Sign := if n < 0 then .Negative else .Positive
  IntVal.new is_neg n.natAbs f

/- ## Value descriptors (src/panic_val.rs) -/

/-- `PanicVariant` (src/panic_val.rs lines 15-23), basic variants (the
`Slice` variant is behind the off-by-default `non_basic` feature).
`Str` holds the UTF-8 bytes of a `&str`; `ShortString` is the inline short
text (modelled from the spec as its occupied bytes). -/
inductive PanicVariant where
  | Str : List Nat → PanicVariant
  | ShortString : List Nat → PanicVariant
  | Int : IntVal → PanicVariant
deriving DecidableEq

/-- `PanicVal` (src/panic_val.rs lines 6-13). -/
structure PanicVal where
  var : PanicVariant
  leftpad : Nat
  rightpad : Nat
  fmt_kind : FmtKind
deriving DecidableEq

/-- `PanicVal::with_leftpad` (src/panic_val.rs lines 37-40). -/
def PanicVal.with_leftpad (pv : PanicVal) (f : FmtArg) : PanicVal :=
  { pv with leftpad := f.indentation }

/-- `PanicVal::with_rightpad` (src/panic_val.rs lines 43-46). -/
def PanicVal.with_rightpad (pv : PanicVal) (f : FmtArg) : PanicVal :=
  { pv with rightpad := f.indentation }

/-- `PanicVal::set_leftpad` (src/panic_val.rs lines 49-52). -/
def PanicVal.set_leftpad (pv : PanicVal) (f : FmtArg) : PanicVal :=
  { pv with leftpad := f.indentation }

/-- `PanicVal::set_rightpad` (src/panic_val.rs lines 55-58). -/
def PanicVal.set_rightpad (pv : PanicVal) (f : FmtArg) : PanicVal :=
  { pv with rightpad := f.indentation }

/-- `PanicVal::write_str` (src/panic_val.rs lines 63-70). -/
def PanicVal.write_str (s : List Nat) : PanicVal :=
  ⟨.Str s, 0, 0, .Display⟩

/-- `PanicVal::__new` (src/panic_val.rs lines 106-113). -/
def PanicVal.__new (var : PanicVariant) (f : FmtArg) : PanicVal :=
  ⟨var, 0, 0, f.fmt_kind⟩

/-- `PanicVal::__string` (src/panic_val.rs lines 115-172): given the
remaining space, returns (left pad count, right pad count, content bytes,
effective render mode, truncation outcome). -/
def PanicVal.__string (pv : PanicVal) (truncate_to : Nat) :
    Nat × Nat × List Nat × FmtKind × WasTruncated :=
  let leftpad := pv.leftpad
  if leftpad > truncate_to then
    (leftpad - truncate_to, 0, [], .Display, .Yes 0)
  else
    let t1 := truncate_to - leftpad
    let svt : List Nat × FmtKind × WasTruncated :=
      match pv.var with
      | .Str s =>
        (s, pv.fmt_kind,
          match pv.fmt_kind with
          | .Display => truncated_str_len s t1
          | .Debug => truncated_debug_str_len s t1)
      | .ShortString s =>
        (s, pv.fmt_kind,
          match pv.fmt_kind with
          | .Display => truncated_str_len s t1
          | .Debug => truncated_debug_str_len s t1)
      | .Int iv =>
        (iv.val.get, .Display,
          if iv.val.len ≤ t1 then .No else .Yes 0)
    let t2 := t1 - svt.2.2.get_length svt.1
    let rightpad := min pv.rightpad t2
    (leftpad, rightpad, svt.1, svt.2.1, svt.2.2)

/- ## Buffer writer (src/concat_panic_.rs) -/

/-- Modelled from the spec: the `__write_array` macro writes one byte at the
cursor of a fixed-capacity buffer. The write is unchecked: attempting it at
or past capacity is a fatal out-of-bounds event (a Rust index panic),
modelled as `none`. -/
def writeByte (capacity : Nat) (buf : List Nat) (b : Nat) : Option (List Nat) :=
  if buf.length < capacity then some (buf ++ [b]) else none

/-- Modelled from the spec: the `__write_array_checked` macro writes one byte
at the cursor only when the cursor is still within capacity, and is a no-op
otherwise (used only for the closing quote). -/
def writeByteChecked (capacity : Nat) (buf : List Nat) (b : Nat) : List Nat :=
  if buf.length < capacity then buf ++ [b] else buf

/-- A sequence of unchecked byte writes (the writer's `while` loops). -/
def writeBytes (capacity : Nat) (buf : List Nat) : List Nat → Option (List Nat)
  | [] => some buf
  | b :: bs =>
    match writeByte capacity buf b with
    | none => none
    | some buf1 => writeBytes capacity buf1 bs

/-- The content-emission block of `write_panicval_to_buffer`
(src/concat_panic_.rs lines 89-120): Display mode emits the truncated raw
bytes verbatim; Quoted/Debug mode (when the remaining space is not zero)
emits the opening quote, the escaped content, and — only when not
truncated — the closing quote via the checked write. -/
def writeContent (capacity : Nat) (buf : List Nat) (rem_space : Nat)
    (string : List Nat) (trunc_len : Nat) (fmt_kind : FmtKind)
    (was_truncated : WasTruncated) : Option (List Nat) :=
  match fmt_kind with
  | .Display => writeBytes capacity buf (string.take trunc_len)
  | .Debug =>
    if rem_space ≠ 0 then
      match writeByte capacity buf 34 with
      | none => none
      | some buf1 =>
        match writeBytes capacity buf1 ((string.take trunc_len).flatMap escapeByteOutput) with
        | none => none
        | some buf2 =>
          match was_truncated with
          | .No => some (writeByteChecked capacity buf2 34)
          | .Yes _ => some buf2
    else some buf

/-- Outcome of `write_panicval_to_buffer` for one descriptor: fall through to
the next descriptor, `return Err(NotEnoughSpace)`, `break 'outer`, or a fatal
out-of-bounds write. -/
inductive StepResult where
  | next : List Nat → StepResult
  | err : List Nat → StepResult
  | brk : List Nat → StepResult
  | oob : StepResult
deriving DecidableEq

/-- The `write_panicval_to_buffer` macro (src/concat_panic_.rs lines 70-135)
for one descriptor: left padding, content (with quoting/escaping), right
padding, then the truncation signal (`Err` below the max capacity, `break`
at it). -/
def writePanicvalToBuffer (capacity max_capacity : Nat) (buf : List Nat)
    (arg : PanicVal) : StepResult :=
  let rem_space := capacity - buf.length
  let r := arg.__string rem_space
  let lpad := r.1
  let rpad := r.2.1
  let string := r.2.2.1
  let fmt_kind := r.2.2.2.1
  let was_truncated := r.2.2.2.2
  let trunc_len := was_truncated.get_length string
  match writeBytes capacity buf (List.replicate lpad 32) with
  | none => .oob
  | some buf1 =>
    match writeContent capacity buf1 rem_space string trunc_len fmt_kind was_truncated with
    | none => .oob
    | some buf2 =>
      match writeBytes capacity buf2 (List.replicate rpad 32) with
      | none => .oob
      | some buf3 =>
        match was_truncated with
        | .Yes _ => if capacity < max_capacity then .err buf3 else .brk buf3
        | .No => .next buf3

/-- Outcome of the inner descriptor loop of the `write_to_buffer` macro. -/
inductive InnerResult where
  | done : List Nat → InnerResult
  | broke : List Nat → InnerResult
  | ranOut : List Nat → InnerResult
  | oob : InnerResult
deriving DecidableEq

/-- The inner loop of the `write_to_buffer` macro (src/concat_panic_.rs lines
141-169), basic variants: each descriptor of one group in order. -/
def writeSeqInner (capacity max_capacity : Nat) (buf : List Nat) :
    List PanicVal → InnerResult
  | [] => .done buf
  | pv :: rest =>
    match writePanicvalToBuffer capacity max_capacity buf pv with
    | .next buf1 => writeSeqInner capacity max_capacity buf1 rest
    | .err buf1 => .ranOut buf1
    | .brk buf1 => .broke buf1
    | .oob => .oob

/-- Result of one full render attempt. -/
inductive WriteResult where
  | completed : List Nat → WriteResult
  | ranOut : List Nat → WriteResult
  | oob : WriteResult
deriving DecidableEq

/-- The `write_to_buffer` macro (src/concat_panic_.rs lines 137-173): the
outer loop over the ordered forest of descriptor groups; `break 'outer`
stops all processing and completes the attempt. -/
def writeToBuffer (capacity max_capacity : Nat) (buf : List Nat) :
    List (List PanicVal) → WriteResult
  | [] => .completed buf
  | g :: gs =>
    match writeSeqInner capacity max_capacity buf g with
    | .done buf1 => writeToBuffer capacity max_capacity buf1 gs
    | .broke buf1 => .completed buf1
    | .ranOut buf1 => .ranOut buf1
    | .oob => .oob

/-- `MAX_PANIC_MSG_LEN` (src/concat_panic_.rs line 68). -/
def MAX_PANIC_MSG_LEN : Nat := 32768

/-- Result of `panic_inner` (src/concat_panic_.rs lines 178-193): it either
returns `Err(NotEnoughSpace)`, diverges carrying the panic message, or hits
a fatal out-of-bounds write. -/
inductive PanicInnerResult where
  | msg : List Nat → PanicInnerResult
  | notEnoughSpace : PanicInnerResult
  | oobAbort : PanicInnerResult
deriving DecidableEq

/-- `panic_inner::<LEN>` (src/concat_panic_.rs lines 178-193): renders into a
fresh `LEN`-byte zero-initialized buffer; on completion the panic message is
`core::str::from_utf8_unchecked(&buffer)` — the ENTIRE buffer, written
prefix plus remaining zero bytes. -/
def panic_inner (LEN : Nat) (args : List (List PanicVal)) : PanicInnerResult :=
  match writeToBuffer LEN MAX_PANIC_MSG_LEN [] args with
  | .completed buf => .msg (buf ++ List.replicate (LEN - buf.length) 0)
  | .ranOut _ => .notEnoughSpace
  | .oob => .oobAbort

/-- Result of `concat_panic`: a panic with a rendered message, a fatal
out-of-bounds abort, or the "unreachable" internal error branch. -/
inductive ConcatResult where
  | msg : List Nat → ConcatResult
  | oobAbort : ConcatResult
  | internalError : ConcatResult
deriving DecidableEq

/-- `concat_panic` (src/concat_panic_.rs lines 42-62): attempts at 1024,
then 6144, then `MAX_PANIC_MSG_LEN`; an `Err` from the final attempt lands
in the "unreachable" internal-error branch. -/
def concat_panic (args : List (List PanicVal)) : ConcatResult :=
  match panic_inner 1024 args with
  | .msg m => .msg m
  | .oobAbort => .oobAbort
  | .notEnoughSpace =>
    match panic_inner (1024 * 6) args with
    | .msg m => .msg m
    | .oobAbort => .oobAbort
    | .notEnoughSpace =>
      match panic_inner MAX_PANIC_MSG_LEN args with
      | .msg m => .msg m
      | .oobAbort => .oobAbort
      | .notEnoughSpace => .internalError

/-- `true` iff an attempt signalled `Err(NotEnoughSpace)`. -/
def WriteResult.isRanOut : WriteResult → Bool
  | .ranOut _ => true
  | _ => false

/-- `true` iff `concat_panic` reached the "unreachable" branch. -/
def ConcatResult.isInternalError : ConcatResult → Bool
  | .internalError => true
  | _ => false

/- ## Reference decimal notion and concrete inputs used by the theorems -/

/-- The ASCII decimal representation of a natural number (most significant
digit first, no leading zeros except for `0` itself). -/
def asciiDecimal (n : Nat) : List Nat :=
  if n = 0 then [48] else ((Nat.digits 10 n).map (fun d => 48 + d)).reverse

/-- UTF-8 bytes of a string (all examples in this file are ASCII). -/
def strBytes (s : String) : List Nat := s.toList.map Char.toNat

/-- The number of content bytes of a descriptor (length of the byte string
its variant renders). -/
def PanicVal.contentLen (pv : PanicVal) : Nat :=
  match pv.var with
  | .Str s => s.length
  | .ShortString s => s.length
  | .Int iv => iv.val.get.length

/-- A descriptor whose left padding (5) exceeds small remaining capacities. -/
def padFiveVal : PanicVal := ⟨.Str [], 5, 0, .Display⟩

/-- A descriptor with the maximal left padding a `u8` allows. -/
def padMaxVal : PanicVal := ⟨.Str [], 255, 0, .Display⟩

/-- A forest that fills all but one byte of the first attempt capacity
(1024) and then requests 255 spaces of left padding. -/
def overrunArgs : List (List PanicVal) :=
  [[PanicVal.write_str (List.replicate 1023 97)], [padMaxVal]]

/-- The descriptor forest of the spec's example:
`[write("the error was "), integer(100), write(" and "),
quoted("\nHello\tworld")]`. -/
def exampleArgs : List (List PanicVal) :=
  [[PanicVal.write_str (strBytes "the error was "),
    PanicVal.__new (.Int (IntVal.from_u128 100 FmtArg.DISPLAY)) FmtArg.DISPLAY,
    PanicVal.write_str (strBytes " and "),
    PanicVal.__new (.Str (strBytes "\nHello\tworld")) FmtArg.DEBUG]]

/-- The bytes of `the error was 100 and "\nHello\tworld"` (with the
two-character escapes). -/
def exampleBytes : List Nat := strBytes "the error was 100 and \"\\nHello\\tworld\""

/-- An integer descriptor holding the value 100 (three digit bytes). -/
def intHundredVal : PanicVal :=
  PanicVal.__new (.Int (IntVal.from_u128 100 FmtArg.DISPLAY)) FmtArg.DISPLAY

/- ## Claim theorems -/

set_option maxRecDepth 40000 in
/-- Claim C1 (code bug): the claim states the writer never writes past the
buffer, but the left-padding clip branch of `PanicVal::__string`
(src/panic_val.rs line 122) returns `leftpad - truncate_to` pad spaces
instead of clipping to the remaining capacity, so at the first attempt
capacity 1024 a forest whose first group fills 1023 bytes followed by a
255-space left padding makes the writer attempt a write past the buffer
(a fatal out-of-bounds index in the Rust code). -/
theorem leftpad_clip_bug_overruns_buffer :
    writeToBuffer 1024 MAX_PANIC_MSG_LEN [] overrunArgs = WriteResult.oob := by
  decide

/-- Claim C3 (code bug): the claim (and the spec) say a descriptor whose
left padding exceeds the remaining capacity emits exactly the
remaining-capacity number of spaces; the code instead emits
`leftpad - remaining` spaces. With remaining capacity 4 and `left_pad = 5`
the code emits a single space (then signals `RanOutOfSpace`), not four. -/
theorem leftpad_clip_bug_wrong_space_count :
    writeToBuffer 4 MAX_PANIC_MSG_LEN [] [[padFiveVal]] = WriteResult.ranOut [32] := by
  decide

/-- Claim C4 (code bug): rendering the spec's example forest at an ample
capacity (50) produces the expected 38 message bytes in the buffer, but
`panic_inner` (src/concat_panic_.rs line 190) panics with the WHOLE buffer
(`from_utf8_unchecked(&buffer)`), so the message handed to the terminal
action carries 12 trailing zero bytes beyond the occupied length,
contradicting the claim that nothing past the occupied length is part of
the message. -/
theorem panic_message_includes_trailing_zeros :
    writeToBuffer 50 MAX_PANIC_MSG_LEN [] exampleArgs = WriteResult.completed exampleBytes
    ∧ panic_inner 50 exampleArgs
        = PanicInnerResult.msg (exampleBytes ++ List.replicate 12 0) := by
  constructor
  · decide
  · decide

/-- Claim C6 counterexample: with remaining budget 1, the integer descriptor
for 100 (three digit bytes) emits zero bytes, while the claim demands
`min(3, 1) = 1` emitted byte. -/
theorem int_truncation_not_min_counterexample :
    (intHundredVal.__string 1).2.2.2.2 = WasTruncated.Yes 0
    ∧ WasTruncated.get_length (intHundredVal.__string 1).2.2.2.2
        ((intHundredVal.__string 1).2.2.1) = 0
    ∧ min (intHundredVal.__string 1).2.2.1.length 1 = 1
    ∧ writePanicvalToBuffer 1 MAX_PANIC_MSG_LEN [] intHundredVal
        = StepResult.err []
    ∧ (0 : Nat) ≠ 1 := by
  refine ⟨by decide, by decide, by decide, by decide, by decide⟩

/-- Claim C10: `with_leftpad`/`set_leftpad` and `with_rightpad`/`set_rightpad`
are extensionally identical. -/
theorem with_pad_eq_set_pad (pv : PanicVal) (f : FmtArg) :
    pv.with_leftpad f = pv.set_leftpad f ∧ pv.with_rightpad f = pv.set_rightpad f :=
  ⟨rfl, rfl⟩

/-- Claim C9: integer content is always rendered in Display mode: whatever
`fmt_kind` is stored in the descriptor and whatever the remaining space,
`__string` reports `FmtKind::Display` for an `Int` variant; and in Display
mode the writer's content phase emits the truncated raw bytes verbatim —
no quotes and no escaping. -/
theorem int_always_display_mode (iv : IntVal) (l r : Nat) (fk : FmtKind) (t : Nat) :
    ((PanicVal.mk (.Int iv) l r fk).__string t).2.2.2.1 = FmtKind.Display
    ∧ ∀ (cap : Nat) (buf : List Nat) (rs : Nat) (s : List Nat) (n : Nat)
        (wt : WasTruncated),
        writeContent cap buf rs s n FmtKind.Display wt = writeBytes cap buf (s.take n) := by
  constructor
  · simp only [PanicVal.__string]
    split
    · rfl
    · simp
  · intro cap buf rs s n wt
    rfl

/- ## Writer helper lemmas -/

theorem writeByte_of_lt {cap : Nat} {buf : List Nat} (b : Nat)
    (h : buf.length < cap) : writeByte cap buf b = some (buf ++ [b]) := by
  simp [writeByte, h]

theorem writeBytes_of_fits {cap : Nat} (bs : List Nat) :
    ∀ (buf : List Nat), buf.length + bs.length ≤ cap →
      writeBytes cap buf bs = some (buf ++ bs) := by
  induction bs with
  | nil => intro buf _; simp [writeBytes]
  | cons b bs ih =>
    intro buf h
    have hlt : buf.length < cap := by simp at h; omega
    have h1 : (buf ++ [b]).length + bs.length ≤ cap := by simp at h ⊢; omega
    simp only [writeBytes, writeByte_of_lt b hlt]
    rw [ih (buf ++ [b]) h1]
    simp

theorem step_not_err_at_max {capacity max_capacity : Nat}
    (h : ¬ capacity < max_capacity) (buf : List Nat) (pv : PanicVal)
    (b : List Nat) :
    writePanicvalToBuffer capacity max_capacity buf pv ≠ StepResult.err b := by
  simp only [writePanicvalToBuffer]
  split
  · simp
  · split
    · simp
    · split
      · simp
      · split
        · simp [h]
        · simp

theorem inner_not_ranOut_at_max {capacity max_capacity : Nat}
    (h : ¬ capacity < max_capacity) (g : List PanicVal) :
    ∀ (buf b : List Nat),
      writeSeqInner capacity max_capacity buf g ≠ InnerResult.ranOut b := by
  induction g with
  | nil => intro buf b; simp [writeSeqInner]
  | cons pv rest ih =>
    intro buf b
    simp only [writeSeqInner]
    cases hstep : writePanicvalToBuffer capacity max_capacity buf pv with
    | next buf1 => exact ih buf1 b
    | err buf1 => exact absurd hstep (step_not_err_at_max h buf pv buf1)
    | brk buf1 => simp
    | oob => simp

theorem writer_not_ranOut_at_max {capacity max_capacity : Nat}
    (h : ¬ capacity < max_capacity) (args : List (List PanicVal)) :
    ∀ (buf b : List Nat),
      writeToBuffer capacity max_capacity buf args ≠ WriteResult.ranOut b := by
  induction args with
  | nil => intro buf b; simp [writeToBuffer]
  | cons g gs ih =>
    intro buf b
    simp only [writeToBuffer]
    cases hinner : writeSeqInner capacity max_capacity buf g with
    | done buf1 => exact ih buf1 b
    | broke buf1 => simp
    | ranOut buf1 => exact absurd hinner (inner_not_ranOut_at_max h g buf buf1)
    | oob => simp

/-- Claim C2: the render attempt at the final capacity
(`LEN = MAX_PANIC_MSG_LEN`, `max_capacity = MAX_PANIC_MSG_LEN`) never
signals `Err(NotEnoughSpace)` — when content is truncated there the writer
breaks out and completes — and therefore the "unreachable" internal-error
branch of `concat_panic` is indeed unreachable for every input. -/
theorem final_capacity_never_ran_out (args : List (List PanicVal)) :
    (writeToBuffer MAX_PANIC_MSG_LEN MAX_PANIC_MSG_LEN [] args).isRanOut = false
    ∧ (concat_panic args).isInternalError = false := by
  have hmax : ¬ MAX_PANIC_MSG_LEN < MAX_PANIC_MSG_LEN := lt_irrefl _
  constructor
  · cases hw : writeToBuffer MAX_PANIC_MSG_LEN MAX_PANIC_MSG_LEN [] args with
    | completed buf => simp [WriteResult.isRanOut]
    | ranOut buf => exact absurd hw (writer_not_ranOut_at_max hmax args [] buf)
    | oob => simp [WriteResult.isRanOut]
  · simp only [concat_panic]
    cases panic_inner 1024 args with
    | msg m => simp [ConcatResult.isInternalError]
    | oobAbort => simp [ConcatResult.isInternalError]
    | notEnoughSpace =>
      simp only []
      cases panic_inner (1024 * 6) args with
      | msg m => simp [ConcatResult.isInternalError]
      | oobAbort => simp [ConcatResult.isInternalError]
      | notEnoughSpace =>
        simp only []
        cases hfin : panic_inner MAX_PANIC_MSG_LEN args with
        | msg m => simp [ConcatResult.isInternalError]
        | oobAbort => simp [ConcatResult.isInternalError]
        | notEnoughSpace =>
          exfalso
          simp only [panic_inner] at hfin
          cases hw : writeToBuffer MAX_PANIC_MSG_LEN MAX_PANIC_MSG_LEN [] args with
          | completed buf => rw [hw] at hfin; simp at hfin
          | ranOut buf => exact writer_not_ranOut_at_max hmax args [] buf hw
          | oob => rw [hw] at hfin; simp at hfin

/-- Claim C8: with zero remaining space, any descriptor with non-empty
content (and no left padding, which a zero budget cannot accommodate)
emits nothing — no content bytes and, in Quoted mode, no opening quote —
and produces a truncation signal (`Err` below the max capacity, `break`
at it), leaving the buffer unchanged. -/
theorem zero_budget_emits_nothing_and_truncates
    (pv : PanicVal) (cap maxCap : Nat) (buf : List Nat)
    (hfull : cap ≤ buf.length) (hlp : pv.leftpad = 0)
    (hne : 0 < pv.contentLen) :
    writePanicvalToBuffer cap maxCap buf pv
      = if cap < maxCap then StepResult.err buf else StepResult.brk buf := by
  have hrem : cap - buf.length = 0 := Nat.sub_eq_zero_of_le hfull
  obtain ⟨var, lp, rp, fk⟩ := pv
  simp only [PanicVal.leftpad] at hlp
  subst hlp
  cases var with
  | Str s =>
    simp only [PanicVal.contentLen] at hne
    have hs : ¬ s.length ≤ 0 := by omega
    cases fk <;>
      simp [writePanicvalToBuffer, PanicVal.__string, hrem, truncated_str_len,
        truncated_debug_str_len, hs, WasTruncated.get_length, writeContent,
        writeBytes]
  | ShortString s =>
    simp only [PanicVal.contentLen] at hne
    have hs : ¬ s.length ≤ 0 := by omega
    cases fk <;>
      simp [writePanicvalToBuffer, PanicVal.__string, hrem, truncated_str_len,
        truncated_debug_str_len, hs, WasTruncated.get_length, writeContent,
        writeBytes]
  | Int iv =>
    simp only [PanicVal.contentLen] at hne
    have hlen : ¬ iv.val.len ≤ 0 := by
      simp only [ShortArrayVec.len]
      simp only [ShortArrayVec.get, List.length_drop] at hne
      omega
    cases fk <;>
      simp [writePanicvalToBuffer, PanicVal.__string, hrem, hlen,
        WasTruncated.get_length, writeContent, writeBytes]

/-- Witness for `zero_budget_emits_nothing_and_truncates`: a one-byte string
descriptor against a full one-byte buffer. -/
theorem zero_budget_emits_nothing_and_truncates_witness :
    writePanicvalToBuffer 1 MAX_PANIC_MSG_LEN [104] (PanicVal.write_str [104])
      = if 1 < MAX_PANIC_MSG_LEN then StepResult.err [104] else StepResult.brk [104] :=
  zero_budget_emits_nothing_and_truncates (PanicVal.write_str [104]) 1
    MAX_PANIC_MSG_LEN [104] (by decide) (by decide) (by decide)

/-- Claim C6 as amended: integer truncation is all-or-nothing, not the
Display-mode `min(len, budget)` rule: with content budget `t - l` (after
left padding `l`), the integer descriptor is truncated iff its digit
string is longer than the budget, and then zero digit bytes are emitted;
when it fits, all of them are. -/
theorem int_truncation_all_or_nothing (iv : IntVal) (l r : Nat) (fk : FmtKind)
    (t : Nat) (h : l ≤ t) :
    ((PanicVal.mk (.Int iv) l r fk).__string t).2.2.2.2
        = (if iv.val.len ≤ t - l then WasTruncated.No else WasTruncated.Yes 0)
    ∧ WasTruncated.get_length ((PanicVal.mk (.Int iv) l r fk).__string t).2.2.2.2
          ((PanicVal.mk (.Int iv) l r fk).__string t).2.2.1
        = (if iv.val.len ≤ t - l then iv.val.len else 0) := by
  have hno : ¬ l > t := not_lt.mpr h
  constructor
  · simp [PanicVal.__string, hno]
  · simp only [PanicVal.__string, hno, WasTruncated.get_length,
      ShortArrayVec.get, ShortArrayVec.len, List.length_drop]
    simp only [hno, if_false, ite_false, Bool.false_eq_true]
    by_cases hc : iv.val.buffer.length ≤ t - l + iv.val.start
    · simp [hc, WasTruncated.get_length]
    · simp [hc, WasTruncated.get_length]

/-- Witness for `int_truncation_all_or_nothing`: the three-digit value 100
with budget 2 (truncated to nothing) discharges the hypothesis at l = 0. -/
theorem int_truncation_all_or_nothing_witness :
    ((PanicVal.mk (.Int (IntVal.from_u128 100 FmtArg.DISPLAY)) 0 0 FmtKind.Display).__string 2).2.2.2.2
        = (if (IntVal.from_u128 100 FmtArg.DISPLAY).val.len ≤ 2 - 0 then WasTruncated.No
           else WasTruncated.Yes 0)
    ∧ WasTruncated.get_length
          ((PanicVal.mk (.Int (IntVal.from_u128 100 FmtArg.DISPLAY)) 0 0 FmtKind.Display).__string 2).2.2.2.2
          ((PanicVal.mk (.Int (IntVal.from_u128 100 FmtArg.DISPLAY)) 0 0 FmtKind.Display).__string 2).2.2.1
        = (if (IntVal.from_u128 100 FmtArg.DISPLAY).val.len ≤ 2 - 0 then (IntVal.from_u128 100 FmtArg.DISPLAY).val.len
           else 0) :=
  int_truncation_all_or_nothing (IntVal.from_u128 100 FmtArg.DISPLAY) 0 0
    FmtKind.Display 2 (by decide)

/- ## Decimal rendering lemmas -/

theorem asciiDecimal_small {n : Nat} (h : n / 10 = 0) :
    asciiDecimal n = [48 + n % 10] := by
  rcases Nat.eq_zero_or_pos n with rfl | hn
  · simp [asciiDecimal]
  · have hlt : n < 10 := (Nat.div_eq_zero_iff (by norm_num)).mp h
    have hd := Nat.digits_of_lt 10 n (by omega) hlt
    simp [asciiDecimal, Nat.pos_iff_ne_zero.mp hn, hd, Nat.mod_eq_of_lt hlt]

theorem asciiDecimal_step {n : Nat} (h : n / 10 ≠ 0) :
    asciiDecimal n = asciiDecimal (n / 10) ++ [48 + n % 10] := by
  have hn : n ≠ 0 := by rintro rfl; simp at h
  have hd := Nat.digits_def' (b := 10) (by norm_num) (Nat.pos_of_ne_zero hn)
  simp [asciiDecimal, hn, h, hd]

theorem asciiDecimal_len_pos (n : Nat) : 0 < (asciiDecimal n).length := by
  by_cases h : n / 10 = 0
  · rw [asciiDecimal_small h]; simp
  · rw [asciiDecimal_step h]; simp

theorem asciiDecimal_len_step {n : Nat} (h : n / 10 ≠ 0) :
    (asciiDecimal n).length = (asciiDecimal (n / 10)).length + 1 := by
  rw [asciiDecimal_step h]; simp

theorem asciiDecimal_len_le_of_lt {n k : Nat} (h : n < 10 ^ k) (hk : 1 ≤ k) :
    (asciiDecimal n).length ≤ k := by
  by_cases hn : n = 0
  · subst hn; simpa [asciiDecimal] using hk
  · have hlen := Nat.digits_len 10 n (by norm_num) hn
    have hlog := Nat.log_lt_of_lt_pow hn h
    simp only [asciiDecimal, hn, if_false, List.length_reverse, List.length_map]
    omega

theorem asciiDecimal_head_ne_zero_digit {n : Nat} (hn : n ≠ 0) :
    (asciiDecimal n).head? ≠ some 48 := by
  have hne : Nat.digits 10 n ≠ [] := Nat.digits_ne_nil_iff_ne_zero.mpr hn
  have hlast := Nat.getLast_digit_ne_zero 10 hn
  simp only [asciiDecimal, hn, if_false, List.head?_reverse, List.getLast?_map]
  rw [List.getLast?_eq_getLast _ hne]
  intro hcon
  have hz : (Nat.digits 10 n).getLast hne = 0 := by
    simp only [Option.map_some'] at hcon
    have := Option.some.inj hcon
    omega
  exact hlast hz

theorem set_pred_drop {buf : List Nat} {start : Nat} (v : Nat)
    (h1 : 1 ≤ start) (h2 : start ≤ buf.length) :
    (buf.set (start - 1) v).drop (start - 1) = v :: buf.drop start := by
  have hidx : start - 1 < buf.length := by omega
  rw [List.drop_eq_getElem_cons (l := buf.set (start - 1) v) (by simpa using hidx)]
  congr 1
  · exact List.getElem_set_self _
  · rw [List.drop_set, if_pos (by omega)]
    congr 1
    omega

theorem newLoop_of_div_eq_zero {fuel n start : Nat} {buf : List Nat}
    (h : n / 10 = 0) :
    IntVal.newLoop fuel n start buf = (start - 1, buf.set (start - 1) (48 + n % 10)) := by
  cases fuel <;> simp [IntVal.newLoop, h]

theorem newLoop_of_div_ne_zero {fuel n start : Nat} {buf : List Nat}
    (h : ¬ n / 10 = 0) :
    IntVal.newLoop (fuel + 1) n start buf
      = IntVal.newLoop fuel (n / 10) (start - 1) (buf.set (start - 1) (48 + n % 10)) := by
  simp [IntVal.newLoop, h]

theorem newLoop_spec_terminal {fuel n start : Nat} {buf : List Nat}
    (hdiv : n / 10 = 0) (hstart : (asciiDecimal n).length ≤ start)
    (hbuf : start ≤ buf.length) :
    (IntVal.newLoop fuel n start buf).1 = start - (asciiDecimal n).length
    ∧ (IntVal.newLoop fuel n start buf).2.length = buf.length
    ∧ (IntVal.newLoop fuel n start buf).2.drop (start - (asciiDecimal n).length)
        = asciiDecimal n ++ buf.drop start := by
  have hs : asciiDecimal n = [48 + n % 10] := asciiDecimal_small hdiv
  have hL1 : (asciiDecimal n).length = 1 := by rw [hs]; rfl
  rw [newLoop_of_div_eq_zero hdiv]
  refine ⟨by rw [hL1], by simp, ?_⟩
  rw [hL1, hs]
  simpa using set_pred_drop (48 + n % 10) (by omega) hbuf

theorem newLoop_spec (fuel : Nat) :
    ∀ (n start : Nat) (buf : List Nat),
      (asciiDecimal n).length ≤ fuel + 1 →
      (asciiDecimal n).length ≤ start →
      start ≤ buf.length →
      (IntVal.newLoop fuel n start buf).1 = start - (asciiDecimal n).length
      ∧ (IntVal.newLoop fuel n start buf).2.length = buf.length
      ∧ (IntVal.newLoop fuel n start buf).2.drop (start - (asciiDecimal n).length)
          = asciiDecimal n ++ buf.drop start := by
  induction fuel with
  | zero =>
    intro n start buf hfuel hstart hbuf
    have hdiv : n / 10 = 0 := by
      by_contra hdiv
      have h1 := asciiDecimal_len_step hdiv
      have h2 := asciiDecimal_len_pos (n / 10)
      omega
    exact newLoop_spec_terminal hdiv hstart hbuf
  | succ fuel ih =>
    intro n start buf hfuel hstart hbuf
    by_cases hdiv : n / 10 = 0
    · exact newLoop_spec_terminal hdiv hstart hbuf
    · have hLs := asciiDecimal_len_step hdiv
      have hLpos := asciiDecimal_len_pos (n / 10)
      have hstart1 : 1 ≤ start := by omega
      rw [newLoop_of_div_ne_zero hdiv]
      obtain ⟨ih1, ih2, ih3⟩ := ih (n / 10) (start - 1)
        (buf.set (start - 1) (48 + n % 10))
        (by omega) (by omega) (by simp; omega)
      have hsub : start - 1 - (asciiDecimal (n / 10)).length
          = start - (asciiDecimal n).length := by omega
      refine ⟨by rw [ih1, hsub], by rw [ih2]; simp, ?_⟩
      rw [hsub] at ih3
      rw [ih3, set_pred_drop (48 + n % 10) hstart1 hbuf, asciiDecimal_step hdiv]
      simp

theorem asciiDecimal_len_le_fuel (n : Nat) : (asciiDecimal n).length ≤ n + 1 := by
  by_cases hn : n = 0
  · subst hn; simp [asciiDecimal]
  · have hlen := Nat.digits_len 10 n (by norm_num) hn
    have hlog := Nat.log_le_self 10 n
    simp only [asciiDecimal, hn, if_false, List.length_reverse, List.length_map]
    omega

theorem from_u128_spec {n : Nat} (f : FmtArg)
    (hlen : (asciiDecimal n).length ≤ 40) :
    (IntVal.from_u128 n f).val.get = asciiDecimal n
    ∧ (IntVal.from_u128 n f).val.buffer.length = 40
    ∧ (IntVal.from_u128 n f).val.start + (asciiDecimal n).length = 40 := by
  obtain ⟨h1, h2, h3⟩ := newLoop_spec n n 40 (List.replicate 40 0)
    (asciiDecimal_len_le_fuel n) hlen (by simp)
  have hL := asciiDecimal_len_pos n
  have hget : (IntVal.from_u128 n f).val.get
      = (IntVal.newLoop n n 40 (List.replicate 40 0)).2.drop
          (IntVal.newLoop n n 40 (List.replicate 40 0)).1 := rfl
  have hdropend : (IntVal.newLoop n n 40 (List.replicate 40 0)).2.drop 40 = [] := by
    apply List.drop_eq_nil_of_le
    rw [h2]; simp
  have hstart : (IntVal.from_u128 n f).val.start
      = (IntVal.newLoop n n 40 (List.replicate 40 0)).1 := rfl
  refine ⟨?_, by simpa using h2, by rw [hstart, h1]; omega⟩
  rw [hget, h1, h3]
  have : (List.replicate 40 0 : List Nat).drop 40 = [] := by simp
  rw [this, List.append_nil]

theorem from_i128_spec {i : Int} (f : FmtArg)
    (hlen : (asciiDecimal i.natAbs).length ≤ 39) :
    (IntVal.from_i128 i f).val.get
        = (if i < 0 then 45 :: asciiDecimal i.natAbs else asciiDecimal i.natAbs)
    ∧ (IntVal.from_i128 i f).val.buffer.length = 40
    ∧ (IntVal.from_i128 i f).val.start
        + ((IntVal.from_i128 i f).val.get).length = 40 := by
  obtain ⟨h1, h2, h3⟩ := newLoop_spec i.natAbs i.natAbs 40 (List.replicate 40 0)
    (asciiDecimal_len_le_fuel i.natAbs) (by omega) (by simp)
  have hL := asciiDecimal_len_pos i.natAbs
  by_cases hi : i < 0
  · have hrepr : IntVal.from_i128 i f
        = ⟨⟨(IntVal.newLoop i.natAbs i.natAbs 40 (List.replicate 40 0)).1 - 1,
            (IntVal.newLoop i.natAbs i.natAbs 40 (List.replicate 40 0)).2.set
              ((IntVal.newLoop i.natAbs i.natAbs 40 (List.replicate 40 0)).1 - 1) 45⟩⟩ := by
      simp [IntVal.from_i128, hi, IntVal.new]
    have hp1 : 1 ≤ (IntVal.newLoop i.natAbs i.natAbs 40 (List.replicate 40 0)).1 := by
      rw [h1]; omega
    have hp2 : (IntVal.newLoop i.natAbs i.natAbs 40 (List.replicate 40 0)).1
        ≤ (IntVal.newLoop i.natAbs i.natAbs 40 (List.replicate 40 0)).2.length := by
      rw [h1, h2]; simp
    have hdrop : (IntVal.newLoop i.natAbs i.natAbs 40 (List.replicate 40 0)).2.drop
        (IntVal.newLoop i.natAbs i.natAbs 40 (List.replicate 40 0)).1
        = asciiDecimal i.natAbs := by
      rw [h1, h3]
      simp
    have hget : (IntVal.from_i128 i f).val.get
        = 45 :: asciiDecimal i.natAbs := by
      rw [hrepr]
      show ((IntVal.newLoop i.natAbs i.natAbs 40 (List.replicate 40 0)).2.set
          ((IntVal.newLoop i.natAbs i.natAbs 40 (List.replicate 40 0)).1 - 1) 45).drop
          ((IntVal.newLoop i.natAbs i.natAbs 40 (List.replicate 40 0)).1 - 1)
        = 45 :: asciiDecimal i.natAbs
      rw [set_pred_drop 45 hp1 hp2, hdrop]
    refine ⟨by rw [hget, if_pos hi], by rw [hrepr]; simpa using h2, ?_⟩
    rw [hget]
    have hstart : (IntVal.from_i128 i f).val.start
        = (IntVal.newLoop i.natAbs i.natAbs 40 (List.replicate 40 0)).1 - 1 := by
      rw [hrepr]
    rw [hstart, h1]
    simp
    omega
  · have hrepr : IntVal.from_i128 i f = IntVal.from_u128 i.natAbs f := by
      simp [IntVal.from_i128, IntVal.from_u128, hi]
    obtain ⟨g1, g2, g3⟩ := from_u128_spec (n := i.natAbs) f (by omega)
    refine ⟨by rw [hrepr, g1, if_neg hi], by rw [hrepr]; exact g2, ?_⟩
    rw [hrepr, g1]
    exact g3

/-- Claim C5: integer rendering is exact. For every `u128` value the
pre-rendered text is exactly the ASCII decimal representation (most
significant digit first, no leading zero unless the value is 0), occupying
the tail of the fixed 40-byte inline buffer (`start + length = 40`) with at
most 39 bytes; for every `i128` value the text is the decimal of the
absolute value with a single leading `-` when negative, fitting the 40-byte
buffer; nothing is ever truncated internally. -/
theorem intval_renders_exact_decimal :
    (∀ (f : FmtArg) (n : Nat), n < 2 ^ 128 →
      (IntVal.from_u128 n f).val.get = asciiDecimal n
      ∧ (IntVal.from_u128 n f).val.buffer.length = 40
      ∧ (IntVal.from_u128 n f).val.start + ((IntVal.from_u128 n f).val.get).length = 40
      ∧ ((IntVal.from_u128 n f).val.get).length ≤ 39
      ∧ (n ≠ 0 → ((IntVal.from_u128 n f).val.get).head? ≠ some 48))
    ∧ (∀ (f : FmtArg) (i : Int), -(2 ^ 127) ≤ i → i < 2 ^ 127 →
      (IntVal.from_i128 i f).val.get
          = (if i < 0 then 45 :: asciiDecimal i.natAbs else asciiDecimal i.natAbs)
      ∧ (IntVal.from_i128 i f).val.buffer.length = 40
      ∧ (IntVal.from_i128 i f).val.start + ((IntVal.from_i128 i f).val.get).length = 40
      ∧ ((IntVal.from_i128 i f).val.get).length ≤ 40) := by
  constructor
  · intro f n hn
    have hpow : n < 10 ^ 39 := lt_of_lt_of_le hn (by norm_num)
    have hlen : (asciiDecimal n).length ≤ 39 :=
      asciiDecimal_len_le_of_lt hpow (by norm_num)
    obtain ⟨g1, g2, g3⟩ := from_u128_spec (n := n) f (by omega)
    refine ⟨g1, g2, by rw [g1]; exact g3, by rw [g1]; exact hlen, ?_⟩
    intro hne
    rw [g1]
    exact asciiDecimal_head_ne_zero_digit hne
  · intro f i hlo hhi
    have habs : i.natAbs ≤ 2 ^ 127 := by omega
    have hpow : i.natAbs < 10 ^ 39 := lt_of_le_of_lt habs (by norm_num)
    have hlen : (asciiDecimal i.natAbs).length ≤ 39 :=
      asciiDecimal_len_le_of_lt hpow (by norm_num)
    obtain ⟨g1, g2, g3⟩ := from_i128_spec (i := i) f hlen
    exact ⟨g1, g2, g3, by omega⟩

/-- Witness for `intval_renders_exact_decimal`: the value 100 and the value
-5 discharge the range hypotheses. -/
theorem intval_renders_exact_decimal_witness :
    ((IntVal.from_u128 100 FmtArg.DISPLAY).val.get = asciiDecimal 100
      ∧ (IntVal.from_u128 100 FmtArg.DISPLAY).val.buffer.length = 40
      ∧ (IntVal.from_u128 100 FmtArg.DISPLAY).val.start
          + ((IntVal.from_u128 100 FmtArg.DISPLAY).val.get).length = 40
      ∧ ((IntVal.from_u128 100 FmtArg.DISPLAY).val.get).length ≤ 39
      ∧ (100 ≠ 0 → ((IntVal.from_u128 100 FmtArg.DISPLAY).val.get).head? ≠ some 48))
    ∧ ((IntVal.from_i128 (-5) FmtArg.DISPLAY).val.get
          = (if (-5 : Int) < 0 then 45 :: asciiDecimal (Int.natAbs (-5))
             else asciiDecimal (Int.natAbs (-5)))
      ∧ (IntVal.from_i128 (-5) FmtArg.DISPLAY).val.buffer.length = 40
      ∧ (IntVal.from_i128 (-5) FmtArg.DISPLAY).val.start
          + ((IntVal.from_i128 (-5) FmtArg.DISPLAY).val.get).length = 40
      ∧ ((IntVal.from_i128 (-5) FmtArg.DISPLAY).val.get).length ≤ 40) :=
  ⟨intval_renders_exact_decimal.1 FmtArg.DISPLAY 100 (by norm_num),
   intval_renders_exact_decimal.2 FmtArg.DISPLAY (-5) (by norm_num) (by norm_num)⟩

/- ## Quoted-mode lemmas -/

theorem escapeByteOutput_length (c : Nat) :
    (escapeByteOutput c).length = escByteWidth c := by
  unfold escapeByteOutput escByteWidth
  split
  · split <;> rfl
  · rfl

theorem flatMap_escape_length (s : List Nat) :
    (s.flatMap escapeByteOutput).length = escListWidth s := by
  induction s with
  | nil => rfl
  | cons c cs ih =>
    rw [List.flatMap_cons, List.length_append, ih, escapeByteOutput_length]
    rfl

theorem debugTruncGo_no {b : Nat} :
    ∀ (s : List Nat) (i w : Nat), debugTruncGo b s i w = .No →
      s = [] ∨ w + escListWidth s ≤ b := by
  intro s
  induction s with
  | nil => intro i w _; exact .inl rfl
  | cons c cs ih =>
    intro i w h
    simp only [debugTruncGo] at h
    by_cases hc : b < w + escByteWidth c
    · rw [if_pos hc] at h
      exact absurd h (by simp)
    · rw [if_neg hc] at h
      rcases ih _ _ h with hnil | hle
      · right
        subst hnil
        simp only [escListWidth]
        omega
      · right
        simp only [escListWidth]
        omega

theorem truncated_debug_no {s : List Nat} {t : Nat}
    (h : truncated_debug_str_len s t = .No) :
    escListWidth s + 2 ≤ t := by
  unfold truncated_debug_str_len at h
  by_cases ht : t < 2
  · rw [if_pos ht] at h
    exact absurd h (by simp)
  · rw [if_neg ht] at h
    rcases debugTruncGo_no s 0 0 h with hnil | hle
    · subst hnil
      simp only [escListWidth]
      omega
    · omega

theorem debugTruncGo_yes {b : Nat} :
    ∀ (s : List Nat) (i w n : Nat), w ≤ b → debugTruncGo b s i w = .Yes n →
      i ≤ n ∧ n - i ≤ s.length ∧ w + escListWidth (s.take (n - i)) ≤ b := by
  intro s
  induction s with
  | nil => intro i w n _ h; simp [debugTruncGo] at h
  | cons c cs ih =>
    intro i w n hw h
    simp only [debugTruncGo] at h
    by_cases hc : b < w + escByteWidth c
    · rw [if_pos hc] at h
      injection h with hn
      subst hn
      refine ⟨le_refl i, by simp, ?_⟩
      simp only [Nat.sub_self, List.take_zero, escListWidth]
      omega
    · rw [if_neg hc] at h
      obtain ⟨ih1, ih2, ih3⟩ := ih (i + 1) (w + escByteWidth c) n (by omega) h
      refine ⟨by omega, by simp; omega, ?_⟩
      have hni : n - i = (n - (i + 1)) + 1 := by omega
      rw [hni, List.take_succ_cons]
      simp only [escListWidth]
      omega

theorem truncated_debug_yes {s : List Nat} {t n : Nat}
    (h : truncated_debug_str_len s t = .Yes n) (ht : 1 ≤ t) :
    n ≤ s.length ∧ 1 + escListWidth (s.take n) ≤ t := by
  unfold truncated_debug_str_len at h
  by_cases h2 : t < 2
  · rw [if_pos h2] at h
    injection h with hn
    subst hn
    simp only [List.take_zero, escListWidth]
    omega
  · rw [if_neg h2] at h
    obtain ⟨-, h1, h3⟩ := debugTruncGo_yes s 0 0 n (by omega) h
    simp only [Nat.sub_zero] at h1 h3
    exact ⟨h1, by omega⟩

theorem __string_debug_inv {pv : PanicVal} {t l r : Nat} {s : List Nat}
    {wt : WasTruncated}
    (h : pv.__string t = (l, r, s, FmtKind.Debug, wt)) :
    l ≤ t ∧ wt = truncated_debug_str_len s (t - l) := by
  obtain ⟨var, lp, rp, fk⟩ := pv
  unfold PanicVal.__string at h
  by_cases hl : lp > t
  · simp only [if_pos hl, Prod.mk.injEq] at h
    exact absurd h.2.2.2.1 (by simp)
  · simp only [if_neg hl, Prod.mk.injEq] at h
    cases var with
    | Str s0 =>
      cases fk with
      | Display => exact absurd h.2.2.2.1 (by simp)
      | Debug =>
        obtain ⟨h1, -, h3, -, h5⟩ := h
        subst h1
        subst h3
        subst h5
        exact ⟨by omega, rfl⟩
    | ShortString s0 =>
      cases fk with
      | Display => exact absurd h.2.2.2.1 (by simp)
      | Debug =>
        obtain ⟨h1, -, h3, -, h5⟩ := h
        subst h1
        subst h3
        subst h5
        exact ⟨by omega, rfl⟩
    | Int iv => exact absurd h.2.2.2.1 (by simp)

/-- Claim C7: in Quoted mode the closing double-quote is emitted iff the
content was not truncated. For any descriptor whose `__string` reports
Quoted/Debug mode, the content phase of the writer completes and appends,
after the opening quote and the escaped content, exactly the closing quote
when `WasTruncated::No` and nothing when `WasTruncated::Yes` (at zero
remaining space nothing at all is emitted and the content counts as
truncated). The hypothesis excludes the corner where the left padding
exactly equals the non-zero remaining space, in which the unchecked
opening-quote write aborts the render before any quote decision. -/
theorem closing_quote_iff_not_truncated
    (pv : PanicVal) (cap : Nat) (buf : List Nat)
    (l r : Nat) (s : List Nat) (wt : WasTruncated)
    (hbuf : buf.length ≤ cap)
    (hstr : pv.__string (cap - buf.length) = (l, r, s, FmtKind.Debug, wt))
    (hpad : l < cap - buf.length ∨ cap - buf.length = 0) :
    writeContent cap (buf ++ List.replicate l 32) (cap - buf.length) s
        (wt.get_length s) FmtKind.Debug wt
      = some ((buf ++ List.replicate l 32) ++
          (if cap - buf.length = 0 then []
           else 34 :: ((s.take (wt.get_length s)).flatMap escapeByteOutput
             ++ (match wt with | .No => [34] | .Yes _ => [])))) := by
  obtain ⟨hl, hwt⟩ := __string_debug_inv hstr
  rcases hpad with hlt | hzero
  · have hrem : cap - buf.length ≠ 0 := by omega
    have hBlen : (buf ++ List.replicate l 32).length = buf.length + l := by simp
    have hopen : writeByte cap (buf ++ List.replicate l 32) 34
        = some ((buf ++ List.replicate l 32) ++ [34]) := by
      apply writeByte_of_lt
      omega
    rw [if_neg hrem]
    cases wt with
    | No =>
      have hno : truncated_debug_str_len s (cap - buf.length - l) = .No := hwt.symm
      have hesc := truncated_debug_no hno
      have htake : s.take (WasTruncated.get_length .No s) = s := by
        simp [WasTruncated.get_length]
      simp only [writeContent, if_pos hrem, hopen, htake]
      have hbytes : writeBytes cap ((buf ++ List.replicate l 32) ++ [34])
          (s.flatMap escapeByteOutput)
          = some (((buf ++ List.replicate l 32) ++ [34]) ++ s.flatMap escapeByteOutput) := by
        apply writeBytes_of_fits
        rw [flatMap_escape_length]
        simp only [List.length_append, hBlen]
        simp
        omega
      rw [hbytes]
      simp only [Option.some.injEq]
      simp
      unfold writeByteChecked
      rw [if_pos]
      · simp
      · simp only [List.length_append, List.length_cons, List.length_replicate,
          flatMap_escape_length]
        omega
    | Yes n =>
      have hyes : truncated_debug_str_len s (cap - buf.length - l) = .Yes n := hwt.symm
      obtain ⟨hn, hesc⟩ := truncated_debug_yes hyes (by omega)
      have hget : WasTruncated.get_length (.Yes n) s = n := rfl
      simp only [writeContent, if_pos hrem, hopen, hget]
      have hbytes : writeBytes cap ((buf ++ List.replicate l 32) ++ [34])
          ((s.take n).flatMap escapeByteOutput)
          = some (((buf ++ List.replicate l 32) ++ [34])
              ++ (s.take n).flatMap escapeByteOutput) := by
        apply writeBytes_of_fits
        rw [flatMap_escape_length]
        simp only [List.length_append, hBlen]
        simp
        omega
      rw [hbytes]
      simp
  · rw [if_pos hzero]
    have : ¬ (cap - buf.length ≠ 0) := by omega
    simp only [writeContent, if_neg this]
    simp

/-- Witness for `closing_quote_iff_not_truncated`: the two-byte Quoted
string "hi" at remaining capacity 10. -/
theorem closing_quote_iff_not_truncated_witness :
    writeContent 10 (([] : List Nat) ++ List.replicate 0 32) (10 - ([] : List Nat).length)
        [104, 105] (WasTruncated.No.get_length [104, 105]) FmtKind.Debug WasTruncated.No
      = some ((([] : List Nat) ++ List.replicate 0 32) ++
          (if 10 - ([] : List Nat).length = 0 then []
           else 34 :: (([104, 105].take (WasTruncated.No.get_length [104, 105])).flatMap
               escapeByteOutput
             ++ (match WasTruncated.No with | .No => [34] | .Yes _ => [])))) :=
  closing_quote_iff_not_truncated ⟨.Str [104, 105], 0, 0, .Debug⟩ 10 [] 0 0
    [104, 105] WasTruncated.No (by decide) (by decide) (Or.inl (by decide))
